import Mathlib

/-!
The package go-itsdangerous: the URL-safe serializer (`url_safe.go`)

A shallow embedding of `URLSafeSerializer.Marshal`, `URLSafeSerializer.Unmarshal`,
`urlSafeSerialize` and `urlSafeDeserialize`, followed by theorems about them.

Conventions of the embedding:

* a Go `[]byte` is a list of bytes (`Fin 256`), a Go `string` is a `String`;
  the test `encoded[0] == '.'` on the first byte is the test that the first
  character is '.', a one-byte character that starts no longer character, and
  `encoded[1:]` then drops exactly that character;
* a Go `interface{}` holding a JSON-like datum is an `Option Value`, where `none`
  is the nil interface (which is also what JSON `null` decodes to);
* a Go function returning `(T, error)` and able to end in a run-time panic is
  a `GoResult T`: either the returned pair or a panic;
* the functions `url_safe.go` calls but does not define (`json.Marshal`,
  `json.Unmarshal`, the zlib writer and reader, `base64Encode`, `base64Decode`,
  the embedded `Signer`) are parameters, collected in `Lib` and `Signer`.
-/

namespace ItsDangerous

/-- A Go byte slice. -/
abbrev Bytes := List (Fin 256)

/-- A Go `error` value: either produced by a library, or built by
`fmt.Errorf(msg + ": %w", cause)`, which wraps `cause`. -/
inductive GoError where
  | base (msg : String)
  | wrap (msg : String) (cause : GoError)
  deriving DecidableEq, Repr

/-- The outcome of a call of a Go function of result type `(T, error)`:
the pair it returns (`err = none` is Go's `nil` error), or a run-time panic. -/
inductive GoResult (α : Type) where
  | ret (val : α) (err : Option GoError)
  | panic (msg : String)
  deriving DecidableEq, Repr

/-- The library functions used by `url_safe.go`.

* `jsonMarshal` is `json.Marshal`, `jsonUnmarshal` is `json.Unmarshal` into an
  `interface{}` variable;
* `zlibCompress b` is the content of the buffer after `zlib.NewWriter`,
  `Write(b)` and `Close()`, or the first error either call reports;
* `zlibDecompress b` is the result of `zlib.NewReader` over `b` followed by
  `io.ReadAll`, or the first error either call reports;
* `base64Encode` and `base64Decode` are the helpers of the same package. -/
structure Lib (Value : Type) where
  jsonMarshal : Option Value → Except GoError Bytes
  jsonUnmarshal : Bytes → Except GoError (Option Value)
  zlibCompress : Bytes → Except GoError Bytes
  zlibDecompress : Bytes → Except GoError Bytes
  base64Encode : Bytes → String
  base64Decode : String → Except GoError Bytes

/-- The `Signer` capability embedded in `URLSafeSerializer`: only the two
methods that `url_safe.go` calls. -/
structure Signer where
  Sign : String → String
  Unsign : String → Except GoError String

/-- The Go struct `URLSafeSerializer`, which embeds a `Signer`. -/
structure URLSafeSerializer where
  Signer : Signer

/-- The function `urlSafeSerialize` of `url_safe.go`. -/
def urlSafeSerialize {Value : Type} (L : Lib Value) (value : Option Value) :
    GoResult String :=
  match L.jsonMarshal value with
  | .error err => .ret "" (some (.wrap "error JSON marshalling payload" err))
  | .ok jsonEncoded =>
    match L.zlibCompress jsonEncoded with
    | .error err => .ret "" (some (.wrap "error compressing payload" err))
    | .ok buf =>
      if buf.length < jsonEncoded.length then
        .ret ("." ++ L.base64Encode buf) none
      else
        .ret (L.base64Encode jsonEncoded) none

/-- The function `urlSafeDeserialize` of `url_safe.go`. The read of `encoded[0]`
is not guarded by a length check, so it panics on the empty string. -/
def urlSafeDeserialize {Value : Type} (L : Lib Value) (encoded : String) :
    GoResult (Option Value) :=
  match encoded.data with
  | [] => .panic "runtime error: index out of range [0] with length 0"
  | c :: rest =>
    let decompress : Bool := c == '.'
    let encoded : String := if decompress then String.mk rest else encoded
    match L.base64Decode encoded with
    | .error err => .ret none (some err)
    | .ok decoded =>
      let inflated : Except GoError Bytes :=
        if decompress then
          match L.zlibDecompress decoded with
          | .error err => .error (.wrap "Error decompressing payload" err)
          | .ok decoded => .ok decoded
        else .ok decoded
      match inflated with
      | .error err => .ret none (some err)
      | .ok decoded =>
        match L.jsonUnmarshal decoded with
        | .error err => .ret none (some (.wrap "error JSON unmarshalling payload" err))
        | .ok payload => .ret payload none

/-- The method `URLSafeSerializer.Marshal`. -/
def URLSafeSerializer.Marshal {Value : Type} (L : Lib Value) (s : URLSafeSerializer)
    (value : Option Value) : GoResult String :=
  match urlSafeSerialize L value with
  | .panic msg => .panic msg
  | .ret _ (some err) => .ret "" (some err)
  | .ret encoded none => .ret (s.Signer.Sign encoded) none

/-- The method `URLSafeSerializer.Unmarshal`. -/
def URLSafeSerializer.Unmarshal {Value : Type} (L : Lib Value) (s : URLSafeSerializer)
    (value : String) : GoResult (Option Value) :=
  match s.Signer.Unsign value with
  | .error err => .ret none (some err)
  | .ok result => urlSafeDeserialize L result

/-- The string that `urlSafeDeserialize` hands to `base64Decode`: the input
without its leading marker when it has one, the input itself otherwise. -/
def remainder (encoded : String) : String :=
  match encoded.data with
  | '.' :: rest => String.mk rest
  | _ => encoded

/-- Whether a framed string carries the compression marker. -/
def marked (encoded : String) : Bool :=
  match encoded.data with
  | c :: _ => c == '.'
  | [] => false

/-! ## Laws of the library functions

The properties of the functions outside `url_safe.go` that the theorems below
take as hypotheses, each one stated on its own. -/

/-- The base64url alphabet has no '.': an encoding never starts with the marker. -/
def Base64NoMarker {Value : Type} (L : Lib Value) : Prop :=
  ∀ p : Bytes, marked (L.base64Encode p) = false

/-- The helper `base64Decode` inverts `base64Encode`. -/
def Base64Roundtrip {Value : Type} (L : Lib Value) : Prop :=
  ∀ p : Bytes, L.base64Decode (L.base64Encode p) = .ok p

/-- The encoding of a non-empty byte slice is a non-empty string. -/
def Base64NonEmpty {Value : Type} (L : Lib Value) : Prop :=
  ∀ p : Bytes, p ≠ [] → L.base64Encode p ≠ ""

/-- Inflating what the zlib writer produced gives the written bytes back. -/
def ZlibRoundtrip {Value : Type} (L : Lib Value) : Prop :=
  ∀ p c : Bytes, L.zlibCompress p = .ok c → L.zlibDecompress c = .ok p

/-- The output of `json.Marshal` parses, to a value equal to the marshalled one
under the JSON equality `jsonEq`. -/
def JsonRoundtrip {Value : Type} (L : Lib Value)
    (jsonEq : Option Value → Option Value → Prop) : Prop :=
  ∀ (v : Option Value) (j : Bytes), L.jsonMarshal v = .ok j →
    ∃ w, L.jsonUnmarshal j = .ok w ∧ jsonEq v w

/-- A successful `json.Marshal` never returns zero bytes. -/
def JsonNonEmpty {Value : Type} (L : Lib Value) : Prop :=
  ∀ (v : Option Value) (j : Bytes), L.jsonMarshal v = .ok j → j ≠ []

/-- The laws of the codec libraries that the round trip rests on. -/
structure LawfulLib {Value : Type} (L : Lib Value)
    (jsonEq : Option Value → Option Value → Prop) : Prop where
  noMarker : Base64NoMarker L
  base64 : Base64Roundtrip L
  base64NonEmpty : Base64NonEmpty L
  zlib : ZlibRoundtrip L
  json : JsonRoundtrip L jsonEq
  jsonNonEmpty : JsonNonEmpty L

/-- The law of a signer: `Unsign` returns the payload of every output of `Sign`. -/
def SignerRoundtrip (S : Signer) : Prop :=
  ∀ p : String, S.Unsign (S.Sign p) = .ok p

/-! ## A concrete library

A small executable instance of `Lib` and `Signer`, used to evaluate the embedded
functions on concrete inputs. -/

/-- Modelled from the spec: the URL-safe base64 alphabet (`-` and `_` in place
of `+` and `/`) of the package helpers `base64Encode` and `base64Decode`, which
are not part of `url_safe.go`. -/
def b64Alphabet : List Char :=
  "ABCDEFGHIJKLMNOPQRSTUVWXYZabcdefghijklmnopqrstuvwxyz0123456789-_".data

/-- The character of a 6-bit group. -/
def encodeSextet (n : Nat) : Char := b64Alphabet.getD n 'A'

/-- The 6-bit group of a character, if it is in the alphabet. -/
def decodeSextet (c : Char) : Option Nat :=
  if b64Alphabet.indexOf c < 64 then some (b64Alphabet.indexOf c) else none

/-- The byte `n mod 256`. -/
def byteOfNat (n : Nat) : Fin 256 := ⟨n % 256, Nat.mod_lt _ (by decide)⟩

/-- Modelled from the spec: base64url encoding of a byte slice (helper
`base64Encode`, absent from `url_safe.go`), three bytes to four characters,
without padding characters. -/
def b64EncodeChars : Bytes → List Char
  | a :: b :: c :: rest =>
    encodeSextet (a.val / 4) :: encodeSextet (a.val % 4 * 16 + b.val / 16) ::
      encodeSextet (b.val % 16 * 4 + c.val / 64) :: encodeSextet (c.val % 64) ::
      b64EncodeChars rest
  | [a, b] =>
    [encodeSextet (a.val / 4), encodeSextet (a.val % 4 * 16 + b.val / 16),
      encodeSextet (b.val % 16 * 4)]
  | [a] => [encodeSextet (a.val / 4), encodeSextet (a.val % 4 * 16)]
  | [] => []

/-- Modelled from the spec: base64url decoding (helper `base64Decode`, absent
from `url_safe.go`); `none` on a character outside the alphabet or on an
impossible length. -/
def b64DecodeChars : List Char → Option Bytes
  | w :: x :: y :: z :: rest =>
    match decodeSextet w, decodeSextet x, decodeSextet y, decodeSextet z,
      b64DecodeChars rest with
    | some p, some q, some r, some s, some tl =>
      some (byteOfNat (p * 4 + q / 16) :: byteOfNat (q % 16 * 16 + r / 4) ::
        byteOfNat (r % 4 * 64 + s) :: tl)
    | _, _, _, _, _ => none
  | [w, x, y] =>
    match decodeSextet w, decodeSextet x, decodeSextet y with
    | some p, some q, some r =>
      some [byteOfNat (p * 4 + q / 16), byteOfNat (q % 16 * 16 + r / 4)]
    | _, _, _ => none
  | [w, x] =>
    match decodeSextet w, decodeSextet x with
    | some p, some q => some [byteOfNat (p * 4 + q / 16)]
    | _, _ => none
  | [_] => none
  | [] => some []

/-- Run-length coding, as pairs of a count (at most 255) and a byte: the body of
the stand-in compressed stream. -/
def rleEncode : Bytes → Bytes
  | [] => []
  | x :: xs =>
    match rleEncode xs with
    | n :: y :: r =>
      if x = y ∧ n.val < 255 then (n + 1) :: y :: r else 1 :: x :: n :: y :: r
    | _ => [1, x]

/-- The inverse of `rleEncode`; `none` on a truncated stream. -/
def rleDecode : Bytes → Option Bytes
  | n :: y :: r =>
    match rleDecode r with
    | some tl => some (List.replicate n.val y ++ tl)
    | none => none
  | [_] => none
  | [] => some []

/-- A stand-in for the zlib writer: the two-byte zlib header followed by the
run-length coded data. It never fails. -/
def demoZlibCompress (b : Bytes) : Except GoError Bytes :=
  .ok (120 :: 156 :: rleEncode b)

/-- A stand-in for the zlib reader followed by `io.ReadAll`: it checks the header
and expands the whole body, whatever its expanded size. -/
def demoZlibDecompress : Bytes → Except GoError Bytes
  | h1 :: h2 :: body =>
    if h1 = 120 ∧ h2 = 156 then
      match rleDecode body with
      | some b => .ok b
      | none => .error (.base "unexpected EOF")
    else .error (.base "zlib: invalid header")
  | _ => .error (.base "unexpected EOF")

/-- The non-nil values of the concrete library: booleans and strings. -/
inductive DemoValue where
  | bool (b : Bool)
  | str (s : Bytes)
  deriving DecidableEq, Repr

/-- The bytes that `json.Marshal` copies into a string literal unchanged:
printable ASCII other than the quote, the backslash and `&`, `<`, `>`. -/
def plainByte (b : Fin 256) : Bool :=
  decide (32 ≤ b.val ∧ b.val < 127 ∧ b.val ≠ 34 ∧ b.val ≠ 92 ∧ b.val ≠ 38 ∧
    b.val ≠ 60 ∧ b.val ≠ 62)

/-- The bytes of `null`. -/
def nullBytes : Bytes := [110, 117, 108, 108]

/-- The bytes of `true`. -/
def trueBytes : Bytes := [116, 114, 117, 101]

/-- The bytes of `false`. -/
def falseBytes : Bytes := [102, 97, 108, 115, 101]

/-- A stand-in for `json.Marshal` on the values of `DemoValue`. A string with a
byte that would need escaping is outside this fragment and is reported as an
error, the way `json.Marshal` reports an unsupported value. -/
def demoJsonMarshal : Option DemoValue → Except GoError Bytes
  | none => .ok nullBytes
  | some (.bool true) => .ok trueBytes
  | some (.bool false) => .ok falseBytes
  | some (.str s) =>
    if s.all plainByte then .ok (34 :: (s ++ [34]))
    else .error (.base "json: unsupported value")

/-- The content of a string literal whose opening quote has been read. -/
def parseStr : Bytes → Option Bytes
  | [] => none
  | b :: r =>
    if b = 34 then (if r = [] then some [] else none)
    else if plainByte b then
      match parseStr r with
      | some s => some (b :: s)
      | none => none
    else none

/-- A stand-in for `json.Unmarshal` into an `interface{}`, on the same fragment. -/
def demoJsonUnmarshal (b : Bytes) : Except GoError (Option DemoValue) :=
  if b = nullBytes then .ok none
  else if b = trueBytes then .ok (some (.bool true))
  else if b = falseBytes then .ok (some (.bool false))
  else
    match b with
    | q :: rest =>
      if q = 34 then
        match parseStr rest with
        | some s => .ok (some (.str s))
        | none => .error (.base "invalid character in string literal")
      else .error (.base "invalid character looking for beginning of value")
    | [] => .error (.base "unexpected end of JSON input")

/-- The concrete codec library. -/
def demoLib : Lib DemoValue where
  jsonMarshal := demoJsonMarshal
  jsonUnmarshal := demoJsonUnmarshal
  zlibCompress := demoZlibCompress
  zlibDecompress := demoZlibDecompress
  base64Encode := fun b => String.mk (b64EncodeChars b)
  base64Decode := fun s =>
    match b64DecodeChars s.data with
    | some b => .ok b
    | none => .error (.base "illegal base64 data")

/-- A one-character keyed checksum of the payload, standing in for the MAC. -/
def demoSig (p : List Char) : List Char :=
  [encodeSextet ((p.foldl (fun acc c => acc + c.toNat) 7) % 64)]

/-- The payload and the signature of a token: the parts before and after its
last separator `.`. -/
def splitLastDot : List Char → Option (List Char × List Char)
  | [] => none
  | c :: cs =>
    match splitLastDot cs with
    | some (a, b) => some (c :: a, b)
    | none => if c = '.' then some ([], cs) else none

/-- Modelled from the spec: `Sign` of the `Signer` (not part of `url_safe.go`):
the payload, the separator and the signature of the payload. -/
def demoSign (p : String) : String := p ++ "." ++ String.mk (demoSig p.data)

/-- Modelled from the spec: `Unsign` of the `Signer` (not part of `url_safe.go`):
it fails on a missing separator or a signature that does not match, and returns
the payload otherwise. -/
def demoUnsign (t : String) : Except GoError String :=
  match splitLastDot t.data with
  | none => .error (.base "itsdangerous: no separator found")
  | some (a, b) =>
    if b = demoSig a then .ok (String.mk a)
    else .error (.base "itsdangerous: signature does not match")

/-- The concrete serializer. -/
def demoSerializer : URLSafeSerializer where
  Signer := { Sign := demoSign, Unsign := demoUnsign }

/-! ## Further laws of the library functions -/

/-- Every stream the zlib writer produces has at least `k` bytes: the framing of
the format (header, checksum, end of the data) is present whatever the input. -/
def ZlibOverhead {Value : Type} (L : Lib Value) (k : Nat) : Prop :=
  ∀ p c : Bytes, L.zlibCompress p = .ok c → k ≤ c.length

/-- The JSON parser rejects the input of zero bytes. -/
def JsonRejectsEmpty {Value : Type} (L : Lib Value) : Prop :=
  ∃ e, L.jsonUnmarshal [] = .error e

/-- Modelled from the spec: the helper `base64Encode`, which is not part of
`url_safe.go`, writes base64 without padding characters (the spec fixes the
alphabet and leaves the padding policy to the helper): `n` bytes give `⌈4n/3⌉`
characters. -/
def Base64Unpadded {Value : Type} (L : Lib Value) : Prop :=
  ∀ p : Bytes, (L.base64Encode p).length = (4 * p.length + 2) / 3

/-! ## A second concrete library

Its values are JSON documents given by their compact text, and its zlib writer
stores the data behind eight bytes of framing, the size of the smallest zlib
stream. -/

/-- The bytes of the JSON text of the value `{"a": 1}`, as `json.Marshal` writes
it: an opening brace, the key `a` in quotes, a colon, the digit `1`, a closing
brace. -/
def jsonA1 : Bytes := [123, 34, 97, 34, 58, 49, 125]

/-- A stand-in for `json.Marshal` on documents given by their text: the text
itself; the nil interface gives `null`. -/
def textJsonMarshal : Option Bytes → Except GoError Bytes
  | none => .ok nullBytes
  | some t =>
    if t = [] ∨ t = nullBytes then .error (.base "json: unsupported value")
    else .ok t

/-- A stand-in for `json.Unmarshal` on the same documents: it rejects the empty
input and reads `null` as the nil interface. -/
def textJsonUnmarshal (b : Bytes) : Except GoError (Option Bytes) :=
  if b = [] then .error (.base "unexpected end of JSON input")
  else if b = nullBytes then .ok none
  else .ok (some b)

/-- The eight bytes of framing of a stored stream. -/
def storedFrame : Bytes := [120, 1, 1, 0, 0, 255, 255, 1]

/-- A stand-in for a zlib writer that stores its input uncompressed. -/
def storedCompress (b : Bytes) : Except GoError Bytes := .ok (storedFrame ++ b)

/-- The reader of `storedCompress`. -/
def storedDecompress (c : Bytes) : Except GoError Bytes :=
  if c.take 8 = storedFrame then .ok (c.drop 8)
  else .error (.base "zlib: invalid header")

/-- The second concrete library, with the base64 functions of the first. -/
def textLib : Lib Bytes where
  jsonMarshal := textJsonMarshal
  jsonUnmarshal := textJsonUnmarshal
  zlibCompress := storedCompress
  zlibDecompress := storedDecompress
  base64Encode := demoLib.base64Encode
  base64Decode := demoLib.base64Decode

/-! ## Basic facts about the framing -/

theorem marked_dot_append (x : String) : marked ("." ++ x) = true := by
  simp [marked, String.data_append]

theorem remainder_dot_append (x : String) : remainder ("." ++ x) = x := by
  simp [remainder, String.data_append]

theorem remainder_of_not_marked (x : String) (h : marked x = false) : remainder x = x := by
  unfold remainder
  unfold marked at h
  split
  · next rest heq => simp [heq] at h
  · rfl

/-- What `urlSafeDeserialize` does on a non-empty input, in terms of `marked`
and `remainder`. -/
theorem urlSafeDeserialize_nonempty {Value : Type} (L : Lib Value) (s : String)
    (hs : s ≠ "") :
    urlSafeDeserialize L s =
      match L.base64Decode (remainder s) with
      | .error err => .ret none (some err)
      | .ok decoded =>
        match (if marked s then
                match L.zlibDecompress decoded with
                | .error err => Except.error (GoError.wrap "Error decompressing payload" err)
                | .ok d => Except.ok d
               else Except.ok decoded) with
        | .error err => .ret none (some err)
        | .ok d =>
          match L.jsonUnmarshal d with
          | .error err => .ret none (some (.wrap "error JSON unmarshalling payload" err))
          | .ok payload => .ret payload none := by
  obtain ⟨cs⟩ := s
  cases cs with
  | nil => exact absurd rfl hs
  | cons c rest =>
    by_cases hc : c = '.'
    · subst hc
      simp [urlSafeDeserialize, remainder, marked]
    · have hr : remainder ⟨c :: rest⟩ = ⟨c :: rest⟩ := by
        apply remainder_of_not_marked
        simp [marked, hc]
      rw [hr]
      simp [urlSafeDeserialize, marked, hc]

/-! ## The concrete library satisfies the laws -/

theorem decodeSextet_encodeSextet (n : Nat) (h : n < 64) :
    decodeSextet (encodeSextet n) = some n := by
  have key : ∀ m : Fin 64, decodeSextet (encodeSextet m.val) = some m.val := by decide
  exact key ⟨n, h⟩

theorem encodeSextet_ne_dot (n : Nat) : encodeSextet n ≠ '.' := by
  by_cases h : n < 64
  · have key : ∀ m : Fin 64, encodeSextet m.val ≠ '.' := by decide
    exact key ⟨n, h⟩
  · have : encodeSextet n = 'A' := by
      unfold encodeSextet
      apply List.getD_eq_default
      have : b64Alphabet.length = 64 := by decide
      omega
    rw [this]; decide

theorem b64DecodeChars_b64EncodeChars (p : Bytes) :
    b64DecodeChars (b64EncodeChars p) = some p := by
  induction p using b64EncodeChars.induct with
  | case1 a b c rest ih =>
    have ha := a.isLt
    have hb := b.isLt
    have hc := c.isLt
    simp only [b64EncodeChars, b64DecodeChars]
    rw [decodeSextet_encodeSextet _ (by omega), decodeSextet_encodeSextet _ (by omega),
      decodeSextet_encodeSextet _ (by omega), decodeSextet_encodeSextet _ (by omega), ih]
    simp only [Option.some.injEq, List.cons.injEq, and_true]
    refine ⟨?_, ?_, ?_⟩ <;> (apply Fin.ext; simp only [byteOfNat]; omega)
  | case2 a b =>
    have ha := a.isLt
    have hb := b.isLt
    simp only [b64EncodeChars, b64DecodeChars]
    rw [decodeSextet_encodeSextet _ (by omega), decodeSextet_encodeSextet _ (by omega),
      decodeSextet_encodeSextet _ (by omega)]
    simp only [Option.some.injEq, List.cons.injEq, and_true]
    refine ⟨?_, ?_⟩ <;> (apply Fin.ext; simp only [byteOfNat]; omega)
  | case3 a =>
    have ha := a.isLt
    simp only [b64EncodeChars, b64DecodeChars]
    rw [decodeSextet_encodeSextet _ (by omega), decodeSextet_encodeSextet _ (by omega)]
    simp only [Option.some.injEq, List.cons.injEq, and_true]
    apply Fin.ext; simp only [byteOfNat]; omega
  | case4 => rfl

theorem b64EncodeChars_head_ne_dot (p : Bytes) :
    (b64EncodeChars p).head? ≠ some '.' := by
  match p with
  | [] => simp [b64EncodeChars]
  | [a] => simp [b64EncodeChars, encodeSextet_ne_dot]
  | [a, b] => simp [b64EncodeChars, encodeSextet_ne_dot]
  | a :: b :: c :: rest => simp [b64EncodeChars, encodeSextet_ne_dot]

theorem b64EncodeChars_ne_nil (p : Bytes) (h : p ≠ []) : b64EncodeChars p ≠ [] := by
  match p with
  | [] => exact absurd rfl h
  | [a] => simp [b64EncodeChars]
  | [a, b] => simp [b64EncodeChars]
  | a :: b :: c :: rest => simp [b64EncodeChars]

theorem rleDecode_rleEncode (b : Bytes) : rleDecode (rleEncode b) = some b := by
  induction b with
  | nil => rfl
  | cons x xs ih =>
    simp only [rleEncode]
    split
    · next n y r heq =>
      rw [heq] at ih
      simp only [rleDecode] at ih
      split
      · next hxy =>
        obtain ⟨rfl, hn⟩ := hxy
        simp only [rleDecode]
        cases hr : rleDecode r with
        | none => simp [hr] at ih
        | some tl =>
          simp only [hr, Option.some.injEq] at ih
          have hv : (n + 1).val = n.val + 1 := by
            rw [Fin.val_add]; simp; omega
          simp only [hv, List.replicate_succ, List.cons_append, ← ih]
      · simp only [rleDecode]
        cases hr : rleDecode r with
        | none => simp [hr] at ih
        | some tl =>
          simp only [hr, Option.some.injEq] at ih
          simp [← ih]
    · next hne =>
      match hm : rleEncode xs with
      | [] =>
        rw [hm] at ih
        simp only [rleDecode, Option.some.injEq] at ih
        subst ih
        simp [rleDecode]
      | [z] =>
        rw [hm] at ih
        simp [rleDecode] at ih
      | n :: y :: r => exact absurd hm (hne n y r)

theorem demoZlib_roundtrip (b : Bytes) :
    ∀ c, demoZlibCompress b = .ok c → demoZlibDecompress c = .ok b := by
  intro c h
  simp only [demoZlibCompress, Except.ok.injEq] at h
  subst h
  simp [demoZlibDecompress, rleDecode_rleEncode]

theorem parseStr_plain (s : Bytes) (h : s.all plainByte = true) :
    parseStr (s ++ [34]) = some s := by
  induction s with
  | nil => simp [parseStr]
  | cons b r ih =>
    simp only [List.all_cons, Bool.and_eq_true] at h
    have hb : b ≠ 34 := by
      intro hb; subst hb; exact absurd h.1 (by decide)
    simp [parseStr, hb, h.1, ih h.2]

theorem demoJson_roundtrip (v : Option DemoValue) (j : Bytes)
    (h : demoJsonMarshal v = .ok j) : demoJsonUnmarshal j = .ok v := by
  match v with
  | none => simp only [demoJsonMarshal, Except.ok.injEq] at h; subst h; rfl
  | some (.bool true) => simp only [demoJsonMarshal, Except.ok.injEq] at h; subst h; rfl
  | some (.bool false) => simp only [demoJsonMarshal, Except.ok.injEq] at h; subst h; rfl
  | some (.str s) =>
    simp only [demoJsonMarshal] at h
    split at h
    · next hp =>
      simp only [Except.ok.injEq] at h
      subst h
      simp [demoJsonUnmarshal, nullBytes, trueBytes, falseBytes, parseStr_plain s hp]
    · simp at h

theorem demoJson_nonempty (v : Option DemoValue) (j : Bytes)
    (h : demoJsonMarshal v = .ok j) : j ≠ [] := by
  match v with
  | none => simp only [demoJsonMarshal, Except.ok.injEq] at h; subst h; decide
  | some (.bool true) => simp only [demoJsonMarshal, Except.ok.injEq] at h; subst h; decide
  | some (.bool false) => simp only [demoJsonMarshal, Except.ok.injEq] at h; subst h; decide
  | some (.str s) =>
    simp only [demoJsonMarshal] at h
    split at h
    · simp only [Except.ok.injEq] at h
      subst h
      simp
    · simp at h

theorem splitLastDot_no_dot (cs : List Char) (h : '.' ∉ cs) : splitLastDot cs = none := by
  induction cs with
  | nil => rfl
  | cons c r ih =>
    simp only [List.mem_cons, not_or] at h
    simp [splitLastDot, ih h.2, Ne.symm h.1]

theorem splitLastDot_append (p sig : List Char) (h : '.' ∉ sig) :
    splitLastDot (p ++ '.' :: sig) = some (p, sig) := by
  induction p with
  | nil => simp [splitLastDot, splitLastDot_no_dot sig h]
  | cons c r ih => simp [splitLastDot, ih]

theorem demoUnsign_demoSign (p : String) : demoUnsign (demoSign p) = .ok p := by
  have hsig : '.' ∉ demoSig p.data := by
    simp [demoSig, Ne.symm (encodeSextet_ne_dot _)]
  have hd : (demoSign p).data = p.data ++ '.' :: demoSig p.data := by
    simp [demoSign, String.data_append]
  simp [demoUnsign, hd, splitLastDot_append _ _ hsig]

theorem demoLib_lawful : LawfulLib demoLib (fun v w => v = w) where
  noMarker := by
    intro p
    have h := b64EncodeChars_head_ne_dot p
    simp only [demoLib, marked]
    split
    · next c rest heq =>
      simp only [heq, List.head?_cons, ne_eq, Option.some.injEq] at h
      simp [h]
    · rfl
  base64 := by
    intro p
    simp [demoLib, b64DecodeChars_b64EncodeChars]
  base64NonEmpty := by
    intro p hp h
    have h2 : b64EncodeChars p = [] := by
      have := congrArg String.data h
      simpa [demoLib] using this
    exact b64EncodeChars_ne_nil p hp h2
  zlib := fun p c h => demoZlib_roundtrip p c h
  json := fun v j h => ⟨v, demoJson_roundtrip v j h, rfl⟩
  jsonNonEmpty := demoJson_nonempty

theorem demoSerializer_roundtrip : SignerRoundtrip demoSerializer.Signer :=
  demoUnsign_demoSign

/-! ## The codec -/

/-- The successful runs of `urlSafeSerialize`: both library calls succeed and
the result is one of the two framings, chosen by the length comparison. -/
theorem urlSafeSerialize_ok {Value : Type} (L : Lib Value) (v : Option Value)
    (s : String) (henc : urlSafeSerialize L v = .ret s none) :
    ∃ j c, L.jsonMarshal v = .ok j ∧ L.zlibCompress j = .ok c ∧
      ((c.length < j.length ∧ s = "." ++ L.base64Encode c) ∨
       (¬ c.length < j.length ∧ s = L.base64Encode j)) := by
  unfold urlSafeSerialize at henc
  cases hj : L.jsonMarshal v with
  | error e => simp [hj] at henc
  | ok j =>
    cases hc : L.zlibCompress j with
    | error e => simp [hj, hc] at henc
    | ok c =>
      simp only [hj, hc] at henc
      refine ⟨j, c, rfl, hc, ?_⟩
      by_cases hlt : c.length < j.length
      · simp only [hlt, if_true, GoResult.ret.injEq, and_true] at henc
        exact Or.inl ⟨hlt, henc.symm⟩
      · simp only [hlt, if_false, GoResult.ret.injEq, and_true] at henc
        exact Or.inr ⟨hlt, henc.symm⟩

theorem dot_append_ne_empty (x : String) : "." ++ x ≠ "" := by
  intro h
  have := congrArg String.data h
  simp [String.data_append] at this

/-- The round trip through the codec, shared by the plain and the signed form. -/
theorem roundtrip_core {Value : Type} (L : Lib Value)
    (jsonEq : Option Value → Option Value → Prop) (hL : LawfulLib L jsonEq)
    (v : Option Value) (s : String) (henc : urlSafeSerialize L v = .ret s none) :
    ∃ w, urlSafeDeserialize L s = .ret w none ∧ jsonEq v w := by
  obtain ⟨j, c, hj, hc, hshape⟩ := urlSafeSerialize_ok L v s henc
  obtain ⟨w, hw, heq⟩ := hL.json v j hj
  refine ⟨w, ?_, heq⟩
  rcases hshape with ⟨_, rfl⟩ | ⟨_, rfl⟩
  · rw [urlSafeDeserialize_nonempty L _ (dot_append_ne_empty _), remainder_dot_append,
      marked_dot_append, hL.base64 c]
    simp [hL.zlib j c hc, hw]
  · rw [urlSafeDeserialize_nonempty L _ (hL.base64NonEmpty j (hL.jsonNonEmpty v j hj)),
      remainder_of_not_marked _ (hL.noMarker j), hL.noMarker j, hL.base64 j]
    simp [hw]

/-- Claim C1: round trip. Given the laws of the JSON, zlib and base64 functions,
whenever `urlSafeSerialize` succeeds on `v` with the framed string `s`,
`urlSafeDeserialize` succeeds on `s` and returns a value that is `v` under JSON
equality; the statement covers the compressed and the uncompressed framing. -/
theorem urlSafe_roundtrip {Value : Type} (L : Lib Value)
    (jsonEq : Option Value → Option Value → Prop) (hL : LawfulLib L jsonEq)
    (v : Option Value) (s : String) (henc : urlSafeSerialize L v = .ret s none) :
    ∃ w, urlSafeDeserialize L s = .ret w none ∧ jsonEq v w :=
  roundtrip_core L jsonEq hL v s henc

/-- The round trip at a string of twenty `x`, which takes the compressed path. -/
theorem urlSafe_roundtrip_witness :
    urlSafeSerialize demoLib (some (.str (List.replicate 20 120)))
        = .ret ".eJwBIhR4ASI" none ∧
      ∃ w, urlSafeDeserialize demoLib ".eJwBIhR4ASI" = .ret w none ∧
        some (DemoValue.str (List.replicate 20 120)) = w :=
  ⟨by decide, urlSafe_roundtrip demoLib (fun v w => v = w) demoLib_lawful
    (some (.str (List.replicate 20 120))) ".eJwBIhR4ASI" (by decide)⟩

/-- Claim C2: signed round trip. For a signer whose `Unsign` returns the payload
of every output of `Sign`, and given the laws of the codec libraries, whenever
`Marshal` succeeds on `v` with token `t`, `Unmarshal` succeeds on `t` and returns a
value that is `v` under JSON equality. -/
theorem signed_roundtrip {Value : Type} (L : Lib Value)
    (jsonEq : Option Value → Option Value → Prop) (hL : LawfulLib L jsonEq)
    (S : URLSafeSerializer) (hS : SignerRoundtrip S.Signer)
    (v : Option Value) (t : String) (hm : S.Marshal L v = .ret t none) :
    ∃ w, S.Unmarshal L t = .ret w none ∧ jsonEq v w := by
  unfold URLSafeSerializer.Marshal at hm
  split at hm
  · simp at hm
  · simp at hm
  · next encoded henc =>
    simp only [GoResult.ret.injEq, and_true] at hm
    subst hm
    obtain ⟨w, hw, heq⟩ := roundtrip_core L jsonEq hL v encoded henc
    exact ⟨w, by simp [URLSafeSerializer.Unmarshal, hS encoded, hw], heq⟩

/-- The signed round trip at the value `true`, which takes the uncompressed path. -/
theorem signed_roundtrip_witness :
    demoSerializer.Marshal demoLib (some (.bool true)) = .ret "dHJ1ZQ.Z" none ∧
      ∃ w, demoSerializer.Unmarshal demoLib "dHJ1ZQ.Z" = .ret w none ∧
        some (DemoValue.bool true) = w :=
  ⟨by decide, signed_roundtrip demoLib (fun v w => v = w) demoLib_lawful demoSerializer
    demoSerializer_roundtrip (some (.bool true)) "dHJ1ZQ.Z" (by decide)⟩

/-- Claim C3: compression correctness. When `urlSafeSerialize` succeeds, its result
starts with the marker if and only if the compressed form of the JSON bytes is
strictly shorter than the JSON bytes; with equal lengths the result is unmarked.
The base64 alphabet is assumed not to contain the marker. -/
theorem urlSafeSerialize_marked_iff {Value : Type} (L : Lib Value)
    (hb : Base64NoMarker L) (v : Option Value) (s : String)
    (henc : urlSafeSerialize L v = .ret s none) :
    ∃ j c, L.jsonMarshal v = .ok j ∧ L.zlibCompress j = .ok c ∧
      (marked s = true ↔ c.length < j.length) ∧
      (c.length = j.length → marked s = false) := by
  obtain ⟨j, c, hj, hc, hshape⟩ := urlSafeSerialize_ok L v s henc
  refine ⟨j, c, hj, hc, ?_⟩
  rcases hshape with ⟨hlt, rfl⟩ | ⟨hge, rfl⟩
  · exact ⟨⟨fun _ => hlt, fun _ => marked_dot_append _⟩, fun h => by omega⟩
  · exact ⟨⟨fun h => by simp [hb j] at h, fun h => absurd h hge⟩, fun _ => hb j⟩

/-- The marker criterion at a string of twenty `x`: 8 compressed bytes against 22. -/
theorem urlSafeSerialize_marked_iff_witness :
    ∃ j c, demoLib.jsonMarshal (some (.str (List.replicate 20 120))) = .ok j ∧
      demoLib.zlibCompress j = .ok c ∧
      (marked ".eJwBIhR4ASI" = true ↔ c.length < j.length) ∧
      (c.length = j.length → marked ".eJwBIhR4ASI" = false) :=
  urlSafeSerialize_marked_iff demoLib demoLib_lawful.noMarker
    (some (.str (List.replicate 20 120))) ".eJwBIhR4ASI" (by decide)

/-- Claim C4: empty-input safety. The claim fails on the code: on the empty
string `urlSafeDeserialize` reads `encoded[0]` without a length check and ends in
an index-out-of-range panic, whatever the libraries are; no error is returned. -/
theorem urlSafeDeserialize_empty_panics {Value : Type} (L : Lib Value) :
    urlSafeDeserialize L ""
      = .panic "runtime error: index out of range [0] with length 0" := rfl

/-- Claim C5: when `Unsign` reports the error `e` on a token, `Unmarshal` returns
the nil value together with `e` itself. The result is the same for every codec
library `L`: nothing is base64-decoded, inflated or parsed. -/
theorem Unmarshal_unsign_error {Value : Type} (L : Lib Value) (S : URLSafeSerializer)
    (t : String) (e : GoError) (h : S.Signer.Unsign t = .error e) :
    S.Unmarshal L t = .ret none (some e) := by
  simp [URLSafeSerializer.Unmarshal, h]

/-- A token whose signature does not match its payload. -/
theorem Unmarshal_unsign_error_witness :
    demoSerializer.Signer.Unsign "dHJ1ZQ.Y"
        = .error (.base "itsdangerous: signature does not match") ∧
      demoSerializer.Unmarshal demoLib "dHJ1ZQ.Y"
        = .ret none (some (.base "itsdangerous: signature does not match")) :=
  ⟨rfl, Unmarshal_unsign_error demoLib demoSerializer "dHJ1ZQ.Y"
    (.base "itsdangerous: signature does not match") rfl⟩

/-- Claim C6: no crash on malformed input. The claim fails on the code: when
`Unsign` succeeds with the empty payload, `Unmarshal` passes it to
`urlSafeDeserialize`, which panics on it (the defect of claim C4). -/
theorem Unmarshal_empty_payload_panics {Value : Type} (L : Lib Value)
    (S : URLSafeSerializer) (t : String) (h : S.Signer.Unsign t = .ok "") :
    S.Unmarshal L t = .panic "runtime error: index out of range [0] with length 0" := by
  simp [URLSafeSerializer.Unmarshal, h, urlSafeDeserialize]

/-- The token `.H` is the signed empty payload: it verifies, and `Unmarshal`
panics on it. -/
theorem Unmarshal_empty_payload_panics_witness :
    demoSerializer.Signer.Sign "" = ".H" ∧
      demoSerializer.Signer.Unsign ".H" = .ok "" ∧
      demoSerializer.Unmarshal demoLib ".H"
        = .panic "runtime error: index out of range [0] with length 0" :=
  ⟨by decide, rfl,
    Unmarshal_empty_payload_panics demoLib demoSerializer ".H" rfl⟩

/-- Claim C7: framed-string grammar. When `urlSafeSerialize` succeeds, its result is
either the unmarked base64 of the JSON bytes or the marker followed by the base64
of the compressed JSON bytes, and nothing else; a marked result always carries the
compressed bytes and an unmarked result always the raw JSON bytes. The base64
alphabet is assumed not to contain the marker. -/
theorem urlSafeSerialize_grammar {Value : Type} (L : Lib Value)
    (hb : Base64NoMarker L) (v : Option Value) (s : String)
    (henc : urlSafeSerialize L v = .ret s none) :
    ∃ j c, L.jsonMarshal v = .ok j ∧ L.zlibCompress j = .ok c ∧
      ((s = L.base64Encode j ∧ marked s = false) ∨
       (s = "." ++ L.base64Encode c ∧ marked s = true)) ∧
      (marked s = true → s = "." ++ L.base64Encode c) ∧
      (marked s = false → s = L.base64Encode j) := by
  obtain ⟨j, c, hj, hc, hshape⟩ := urlSafeSerialize_ok L v s henc
  refine ⟨j, c, hj, hc, ?_⟩
  rcases hshape with ⟨_, rfl⟩ | ⟨_, rfl⟩
  · refine ⟨Or.inr ⟨rfl, marked_dot_append _⟩, fun _ => rfl, fun h => ?_⟩
    simp [marked_dot_append] at h
  · refine ⟨Or.inl ⟨rfl, hb j⟩, fun h => ?_, fun _ => rfl⟩
    simp [hb j] at h

/-- The grammar at the value `true`, whose JSON bytes stay uncompressed. -/
theorem urlSafeSerialize_grammar_witness :
    ∃ j c, demoLib.jsonMarshal (some (.bool true)) = .ok j ∧
      demoLib.zlibCompress j = .ok c ∧
      (("dHJ1ZQ" = demoLib.base64Encode j ∧ marked "dHJ1ZQ" = false) ∨
       ("dHJ1ZQ" = "." ++ demoLib.base64Encode c ∧ marked "dHJ1ZQ" = true)) ∧
      (marked "dHJ1ZQ" = true → "dHJ1ZQ" = "." ++ demoLib.base64Encode c) ∧
      (marked "dHJ1ZQ" = false → "dHJ1ZQ" = demoLib.base64Encode j) :=
  urlSafeSerialize_grammar demoLib demoLib_lawful.noMarker (some (.bool true)) "dHJ1ZQ"
    (by decide)

/-- Claim C8: `Marshal` is `Sign` after the codec. If `urlSafeSerialize` succeeds
with `s`, `Marshal` returns `Sign s` and no error; if it fails with the error `e`,
`Marshal` returns the empty string with `e` itself, and the result is the same
for every signer, so `Sign` plays no part in it. -/
theorem Marshal_sign_after_encode {Value : Type} (L : Lib Value) (S : URLSafeSerializer)
    (v : Option Value) :
    (∀ s, urlSafeSerialize L v = .ret s none →
      S.Marshal L v = .ret (S.Signer.Sign s) none) ∧
    (∀ s e, urlSafeSerialize L v = .ret s (some e) →
      ∀ S' : URLSafeSerializer, S'.Marshal L v = .ret "" (some e)) := by
  constructor
  · intro s h
    simp [URLSafeSerializer.Marshal, h]
  · intro s e h S'
    simp [URLSafeSerializer.Marshal, h]

/-- `Marshal` at the value `true`, which is signed, and at a string with a quote,
which this JSON fragment rejects. -/
theorem Marshal_sign_after_encode_witness :
    demoSerializer.Marshal demoLib (some (.bool true))
        = .ret (demoSerializer.Signer.Sign "dHJ1ZQ") none ∧
      demoSerializer.Marshal demoLib (some (.str [34]))
        = .ret "" (some (.wrap "error JSON marshalling payload"
            (.base "json: unsupported value"))) :=
  ⟨(Marshal_sign_after_encode demoLib demoSerializer (some (.bool true))).1 "dHJ1ZQ"
      (by decide),
    (Marshal_sign_after_encode demoLib demoSerializer (some (.str [34]))).2 ""
      (.wrap "error JSON marshalling payload" (.base "json: unsupported value"))
      (by decide) demoSerializer⟩

/-- Claim C9: `Unmarshal` succeeds with a value exactly when `Unsign` succeeds with
some payload and `urlSafeDeserialize` succeeds on that payload with that value;
once `Unsign` has succeeded with `p`, the whole result of `Unmarshal`, value and
error, is the result of `urlSafeDeserialize` on `p`. -/
theorem Unmarshal_iff {Value : Type} (L : Lib Value) (S : URLSafeSerializer)
    (t : String) :
    (∀ w, S.Unmarshal L t = .ret w none ↔
      ∃ p, S.Signer.Unsign t = .ok p ∧ urlSafeDeserialize L p = .ret w none) ∧
    (∀ p, S.Signer.Unsign t = .ok p → S.Unmarshal L t = urlSafeDeserialize L p) := by
  constructor
  · intro w
    cases h : S.Signer.Unsign t with
    | error e => simp [URLSafeSerializer.Unmarshal, h]
    | ok p => simp [URLSafeSerializer.Unmarshal, h]
  · intro p h
    simp [URLSafeSerializer.Unmarshal, h]

/-- A token that verifies and whose payload is not valid base64: the error of
`urlSafeDeserialize` is the result of `Unmarshal`. -/
theorem Unmarshal_iff_witness :
    demoSerializer.Signer.Unsign "dHJ1Z.I" = .ok "dHJ1Z" ∧
      demoSerializer.Unmarshal demoLib "dHJ1Z.I" = urlSafeDeserialize demoLib "dHJ1Z" ∧
      urlSafeDeserialize demoLib "dHJ1Z"
        = .ret none (some (.base "illegal base64 data")) :=
  ⟨rfl, (Unmarshal_iff demoLib demoSerializer "dHJ1Z.I").2 "dHJ1Z" rfl, by decide⟩

/-- Claim C10: on a non-empty framed string whose remainder `base64Decode` rejects
with the error `e`, `urlSafeDeserialize` returns the nil value together with `e`.
The same holds for every library with the same `base64Decode`, whatever its zlib
and JSON functions are: nothing is inflated or parsed. -/
theorem urlSafeDeserialize_base64_error {Value : Type} (L : Lib Value) (s : String)
    (e : GoError) (hs : s ≠ "") (h : L.base64Decode (remainder s) = .error e) :
    urlSafeDeserialize L s = .ret none (some e) ∧
    ∀ L' : Lib Value, L'.base64Decode = L.base64Decode →
      urlSafeDeserialize L' s = .ret none (some e) := by
  have key : ∀ L' : Lib Value, L'.base64Decode = L.base64Decode →
      urlSafeDeserialize L' s = .ret none (some e) := by
    intro L' hL'
    rw [urlSafeDeserialize_nonempty L' s hs, hL', h]
  exact ⟨key L rfl, key⟩

/-- A marked string whose remainder has characters outside the alphabet. -/
theorem urlSafeDeserialize_base64_error_witness :
    demoLib.base64Decode (remainder ".!!") = .error (.base "illegal base64 data") ∧
      urlSafeDeserialize demoLib ".!!" = .ret none (some (.base "illegal base64 data")) :=
  ⟨rfl, (urlSafeDeserialize_base64_error demoLib ".!!" (.base "illegal base64 data")
    (by decide) rfl).1⟩

/-! ## Decoding errors of the later stages -/

theorem ne_empty_of_marked (s : String) (h : marked s = true) : s ≠ "" := by
  intro hs
  subst hs
  simp [marked] at h

/-- The run of `urlSafeDeserialize` on a marked string whose remainder decodes to
`d` and whose payload inflates to `b`: the result of parsing `b`. -/
theorem urlSafeDeserialize_marked_inflated {Value : Type} (L : Lib Value) (s : String)
    (d b : Bytes) (hm : marked s = true) (hd : L.base64Decode (remainder s) = .ok d)
    (hz : L.zlibDecompress d = .ok b) :
    urlSafeDeserialize L s =
      match L.jsonUnmarshal b with
      | .error err => .ret none (some (.wrap "error JSON unmarshalling payload" err))
      | .ok payload => .ret payload none := by
  rw [urlSafeDeserialize_nonempty L s (ne_empty_of_marked s hm), hd]
  simp [hm, hz]

/-- The run of `urlSafeDeserialize` on a non-empty unmarked string whose remainder
decodes to `d`: the result of parsing `d`. -/
theorem urlSafeDeserialize_unmarked_decoded {Value : Type} (L : Lib Value) (s : String)
    (d : Bytes) (hs : s ≠ "") (hm : marked s = false)
    (hd : L.base64Decode (remainder s) = .ok d) :
    urlSafeDeserialize L s =
      match L.jsonUnmarshal d with
      | .error err => .ret none (some (.wrap "error JSON unmarshalling payload" err))
      | .ok payload => .ret payload none := by
  rw [urlSafeDeserialize_nonempty L s hs, hd]
  simp [hm]

/-- Claim C11: on a marked framed string whose remainder is valid base64 and whose
decoded bytes the zlib reader rejects with the error `e`, `urlSafeDeserialize`
returns the nil value together with `e` wrapped as a decompression error. The
same holds for every library with the same base64 and zlib functions, whatever
its JSON parser is: nothing is parsed. -/
theorem urlSafeDeserialize_zlib_error {Value : Type} (L : Lib Value) (s : String)
    (d : Bytes) (e : GoError) (hm : marked s = true)
    (hd : L.base64Decode (remainder s) = .ok d) (hz : L.zlibDecompress d = .error e) :
    urlSafeDeserialize L s = .ret none (some (.wrap "Error decompressing payload" e)) ∧
    ∀ L' : Lib Value, L'.base64Decode = L.base64Decode →
      L'.zlibDecompress = L.zlibDecompress →
      urlSafeDeserialize L' s
        = .ret none (some (.wrap "Error decompressing payload" e)) := by
  have key : ∀ L' : Lib Value, L'.base64Decode = L.base64Decode →
      L'.zlibDecompress = L.zlibDecompress →
      urlSafeDeserialize L' s
        = .ret none (some (.wrap "Error decompressing payload" e)) := by
    intro L' h1 h2
    rw [urlSafeDeserialize_nonempty L' s (ne_empty_of_marked s hm), h1, hd]
    simp [hm, h2, hz]
  exact ⟨key L rfl rfl, key⟩

/-- A marked string whose payload is the four bytes of `true`, which do not start
with the zlib header. -/
theorem urlSafeDeserialize_zlib_error_witness :
    marked ".dHJ1ZQ" = true ∧
      demoLib.base64Decode (remainder ".dHJ1ZQ") = .ok trueBytes ∧
      demoLib.zlibDecompress trueBytes = .error (.base "zlib: invalid header") ∧
      urlSafeDeserialize demoLib ".dHJ1ZQ"
        = .ret none (some (.wrap "Error decompressing payload"
            (.base "zlib: invalid header"))) :=
  ⟨by decide, rfl, rfl,
    (urlSafeDeserialize_zlib_error demoLib ".dHJ1ZQ" trueBytes
      (.base "zlib: invalid header") (by decide) rfl rfl).1⟩

/-- The JSON bytes of a string of `n` letters `x` in the concrete library. -/
theorem demoJsonMarshal_xs (n : Nat) :
    demoLib.jsonMarshal (some (.str (List.replicate n 120)))
      = .ok (34 :: (List.replicate n 120 ++ [34])) := by
  have hp : (List.replicate n (120 : Fin 256)).all plainByte = true := by
    simp only [List.all_eq_true]
    intro x hx
    rw [List.eq_of_mem_replicate hx]
    decide
  simp [demoLib, demoJsonMarshal, hp]

/-- Claim C12, counterexample: no maximum decompressed size is enforced. For every
candidate ceiling `N` the marked framing of the compressed string of `N` letters
`x` inflates to `N + 2` bytes, and `urlSafeDeserialize` returns the value parsed
from all of them instead of a decompression error. -/
theorem decompression_ceiling_absent :
    ¬ ∃ N : Nat, ∀ (s : String) (d b : Bytes), marked s = true →
      demoLib.base64Decode (remainder s) = .ok d → demoLib.zlibDecompress d = .ok b →
      N < b.length →
      ∃ e, urlSafeDeserialize demoLib s
        = .ret none (some (.wrap "Error decompressing payload" e)) := by
  rintro ⟨N, h⟩
  have hj := demoJsonMarshal_xs N
  have hc : demoLib.zlibCompress (34 :: (List.replicate N 120 ++ [34]))
      = .ok (120 :: 156 :: rleEncode (34 :: (List.replicate N 120 ++ [34]))) := rfl
  have hd : demoLib.base64Decode (remainder ("." ++ demoLib.base64Encode
      (120 :: 156 :: rleEncode (34 :: (List.replicate N 120 ++ [34])))))
      = .ok (120 :: 156 :: rleEncode (34 :: (List.replicate N 120 ++ [34]))) := by
    rw [remainder_dot_append]
    exact demoLib_lawful.base64 _
  have hz := demoLib_lawful.zlib _ _ hc
  obtain ⟨e, he⟩ := h _ _ _ (marked_dot_append _) hd hz (by simp; omega)
  rw [urlSafeDeserialize_marked_inflated demoLib _ _ _ (marked_dot_append _) hd hz] at he
  have hu : demoLib.jsonUnmarshal (34 :: (List.replicate N 120 ++ [34]))
      = .ok (some (.str (List.replicate N 120))) :=
    demoJson_roundtrip (some (.str (List.replicate N 120))) _ hj
  rw [hu] at he
  simp at he

/-- Claim C12, as amended: `urlSafeDeserialize` puts no ceiling on the decompressed
size. On a marked framed string whose remainder is valid base64 and whose payload
the zlib reader inflates to `b`, whatever the length of `b`, the result is that of
parsing all of `b` as JSON, and it is never a decompression error. -/
theorem urlSafeDeserialize_inflates_unbounded {Value : Type} (L : Lib Value)
    (s : String) (d b : Bytes) (hm : marked s = true)
    (hd : L.base64Decode (remainder s) = .ok d) (hz : L.zlibDecompress d = .ok b) :
    urlSafeDeserialize L s =
      (match L.jsonUnmarshal b with
       | .error err => .ret none (some (.wrap "error JSON unmarshalling payload" err))
       | .ok payload => .ret payload none) ∧
    ∀ e, urlSafeDeserialize L s
      ≠ .ret none (some (.wrap "Error decompressing payload" e)) := by
  have h := urlSafeDeserialize_marked_inflated L s d b hm hd hz
  refine ⟨h, fun e he => ?_⟩
  rw [h] at he
  cases hp : L.jsonUnmarshal b with
  | error err =>
    rw [hp] at he
    simp only [GoResult.ret.injEq, Option.some.injEq, GoError.wrap.injEq, true_and] at he
    exact absurd he.1 (by decide)
  | ok payload =>
    rw [hp] at he
    simp at he

/-- A stream of 8 bytes that inflates to 62 bytes, all of which are parsed. -/
theorem urlSafeDeserialize_inflates_unbounded_witness :
    marked ".eJwBIjx4ASI" = true ∧
      demoLib.base64Decode (remainder ".eJwBIjx4ASI")
        = .ok [120, 156, 1, 34, 60, 120, 1, 34] ∧
      demoLib.zlibDecompress [120, 156, 1, 34, 60, 120, 1, 34]
        = .ok (34 :: (List.replicate 60 120 ++ [34])) ∧
      urlSafeDeserialize demoLib ".eJwBIjx4ASI"
        = (match demoLib.jsonUnmarshal (34 :: (List.replicate 60 120 ++ [34])) with
           | .error err => .ret none (some (.wrap "error JSON unmarshalling payload" err))
           | .ok payload => .ret payload none) :=
  ⟨by decide, rfl, rfl,
    (urlSafeDeserialize_inflates_unbounded demoLib ".eJwBIjx4ASI"
      [120, 156, 1, 34, 60, 120, 1, 34] (34 :: (List.replicate 60 120 ++ [34]))
      (by decide) rfl rfl).1⟩

theorem marked_of_remainder_empty (s : String) (hs : s ≠ "") (hr : remainder s = "") :
    marked s = true := by
  cases hm : marked s with
  | true => rfl
  | false =>
    rw [remainder_of_not_marked s hm] at hr
    exact absurd hr hs

/-- Claim C13, counterexample: the non-empty framed string with an empty base64
remainder is `.`; it is marked, so the empty decoded bytes go to the zlib reader,
and the result is its decompression error, not a JSON error. -/
theorem empty_remainder_decompression_error :
    "." ≠ "" ∧ remainder "." = "" ∧ demoLib.base64Decode "" = .ok [] ∧
      urlSafeDeserialize demoLib "."
        = .ret none (some (.wrap "Error decompressing payload"
            (.base "unexpected EOF"))) ∧
      ¬ ∃ e, urlSafeDeserialize demoLib "."
        = .ret none (some (.wrap "error JSON unmarshalling payload" e)) := by
  refine ⟨by decide, rfl, rfl, by decide, ?_⟩
  rintro ⟨e, he⟩
  have h : urlSafeDeserialize demoLib "."
      = .ret none (some (.wrap "Error decompressing payload"
          (.base "unexpected EOF"))) := by decide
  rw [h] at he
  simp only [GoResult.ret.injEq, Option.some.injEq, GoError.wrap.injEq, true_and] at he
  exact absurd he.1 (by decide)

/-- Claim C13, as amended: on a non-empty framed string for which base64 decoding,
and inflating when the string is marked, succeed with bytes `b` that the JSON
parser rejects with the error `e`, `urlSafeDeserialize` returns the nil value
together with `e` wrapped as a JSON error; `b` may be empty. When the base64
remainder is empty the string is marked, and a rejection of the decoded bytes by
the zlib reader is returned as a decompression error. -/
theorem urlSafeDeserialize_json_error {Value : Type} (L : Lib Value) (s : String)
    (d : Bytes) (hs : s ≠ "") (hd : L.base64Decode (remainder s) = .ok d) :
    (∀ (b : Bytes) (e : GoError),
      ((marked s = true ∧ L.zlibDecompress d = .ok b) ∨ (marked s = false ∧ b = d)) →
      L.jsonUnmarshal b = .error e →
      urlSafeDeserialize L s
        = .ret none (some (.wrap "error JSON unmarshalling payload" e))) ∧
    (remainder s = "" → marked s = true ∧
      ∀ e, L.zlibDecompress d = .error e →
        urlSafeDeserialize L s
          = .ret none (some (.wrap "Error decompressing payload" e))) := by
  constructor
  · intro b e hb hj
    rcases hb with ⟨hm, hz⟩ | ⟨hm, rfl⟩
    · rw [urlSafeDeserialize_marked_inflated L s d b hm hd hz, hj]
    · rw [urlSafeDeserialize_unmarked_decoded L s b hs hm hd, hj]
  · intro hr
    have hm := marked_of_remainder_empty s hs hr
    refine ⟨hm, fun e hz => ?_⟩
    rw [urlSafeDeserialize_nonempty L s hs, hd]
    simp [hm, hz]

/-- A marked string that inflates to zero bytes, an unmarked string that decodes to
the two bytes `xx`, and the string `.` with its empty remainder. -/
theorem urlSafeDeserialize_json_error_witness :
    urlSafeDeserialize demoLib ".eJw"
        = .ret none (some (.wrap "error JSON unmarshalling payload"
            (.base "unexpected end of JSON input"))) ∧
      urlSafeDeserialize demoLib "eHg"
        = .ret none (some (.wrap "error JSON unmarshalling payload"
            (.base "invalid character looking for beginning of value"))) ∧
      urlSafeDeserialize demoLib "."
        = .ret none (some (.wrap "Error decompressing payload"
            (.base "unexpected EOF"))) :=
  ⟨(urlSafeDeserialize_json_error demoLib ".eJw" [120, 156] (by decide) rfl).1 []
      (.base "unexpected end of JSON input") (Or.inl ⟨by decide, rfl⟩) rfl,
    (urlSafeDeserialize_json_error demoLib "eHg" [120, 120] (by decide) rfl).1 [120, 120]
      (.base "invalid character looking for beginning of value")
      (Or.inr ⟨by decide, rfl⟩) rfl,
    ((urlSafeDeserialize_json_error demoLib "." [] (by decide) rfl).2 rfl).2
      (.base "unexpected EOF") rfl⟩

/-! ## The second concrete library satisfies the laws -/

theorem textLib_lawful : LawfulLib textLib (fun v w => v = w) where
  noMarker := demoLib_lawful.noMarker
  base64 := demoLib_lawful.base64
  base64NonEmpty := demoLib_lawful.base64NonEmpty
  zlib := by
    intro p c h
    simp only [textLib, storedCompress, Except.ok.injEq] at h
    subst h
    simp [textLib, storedDecompress, storedFrame]
  json := by
    intro v j h
    refine ⟨v, ?_, rfl⟩
    match v with
    | none =>
      simp only [textLib, textJsonMarshal, Except.ok.injEq] at h
      subst h
      rfl
    | some t =>
      simp only [textLib, textJsonMarshal] at h
      split at h
      · simp at h
      · next hne =>
        simp only [Except.ok.injEq] at h
        subst h
        simp only [not_or] at hne
        simp [textLib, textJsonUnmarshal, hne.1, hne.2]
  jsonNonEmpty := by
    intro v j h
    match v with
    | none =>
      simp only [textLib, textJsonMarshal, Except.ok.injEq] at h
      subst h
      decide
    | some t =>
      simp only [textLib, textJsonMarshal] at h
      split at h
      · simp at h
      · next hne =>
        simp only [Except.ok.injEq] at h
        subst h
        simp only [not_or] at hne
        exact hne.1

theorem textLib_overhead : ZlibOverhead textLib 8 := by
  intro p c h
  simp only [textLib, storedCompress, Except.ok.injEq] at h
  subst h
  simp [storedFrame]

/-! ## Which framing is chosen -/

/-- Claim C15: small values stay uncompressed. For a zlib writer whose streams
all have at least `k` bytes, a value whose JSON bytes `j` are at most `k` long is
encoded as the unmarked base64 of `j`, and decoding that string restores the
value; the witness is the value `{"a": 1}`, whose JSON text has 7 bytes. -/
theorem small_value_stays_unmarked {Value : Type} (L : Lib Value)
    (jsonEq : Option Value → Option Value → Prop) (hL : LawfulLib L jsonEq)
    (k : Nat) (hk : ZlibOverhead L k) (v : Option Value) (j c : Bytes)
    (hj : L.jsonMarshal v = .ok j) (hc : L.zlibCompress j = .ok c)
    (hlen : j.length ≤ k) :
    urlSafeSerialize L v = .ret (L.base64Encode j) none ∧
    marked (L.base64Encode j) = false ∧
    ∃ w, urlSafeDeserialize L (L.base64Encode j) = .ret w none ∧ jsonEq v w := by
  have hge := hk j c hc
  have henc : urlSafeSerialize L v = .ret (L.base64Encode j) none := by
    have hnot : ¬ c.length < j.length := by omega
    simp [urlSafeSerialize, hj, hc, hnot]
  exact ⟨henc, hL.noMarker j, roundtrip_core L jsonEq hL v _ henc⟩

/-- The value `{"a": 1}`: its 7 JSON bytes against a stream of 15 bytes. -/
theorem small_value_stays_unmarked_witness :
    textLib.jsonMarshal (some jsonA1) = .ok jsonA1 ∧
      textLib.base64Encode jsonA1 = "eyJhIjoxfQ" ∧
      urlSafeSerialize textLib (some jsonA1) = .ret (textLib.base64Encode jsonA1) none ∧
      marked (textLib.base64Encode jsonA1) = false ∧
      ∃ w, urlSafeDeserialize textLib (textLib.base64Encode jsonA1) = .ret w none ∧
        some jsonA1 = w :=
  ⟨rfl, by decide,
    small_value_stays_unmarked textLib (fun v w => v = w) textLib_lawful 8
      textLib_overhead (some jsonA1) jsonA1 (storedFrame ++ jsonA1) rfl rfl (by decide)⟩

theorem rleEncode_cons_length (y : Fin 256) (xs : Bytes) :
    (rleEncode (y :: xs)).length ≤ (rleEncode xs).length + 2 := by
  simp only [rleEncode]
  split
  · next n z r heq =>
    rw [heq]
    split <;> simp
  · simp

/-- The three ways `rleEncode` treats a byte in front of a coded rest: it joins
the first run, or starts a run in front of the rest, or starts the only run. -/
theorem rleEncode_cons_cases (x : Fin 256) (xs : Bytes) :
    (∃ (n : Fin 256) (r : Bytes), rleEncode xs = n :: x :: r ∧ n.val < 255 ∧
        rleEncode (x :: xs) = (n + 1) :: x :: r) ∨
      (rleEncode (x :: xs) = 1 :: x :: rleEncode xs ∧
        ∀ (n : Fin 256) (r : Bytes), rleEncode xs = n :: x :: r → n.val = 255) ∨
      rleEncode (x :: xs) = [1, x] := by
  rw [rleEncode]
  split
  · next n y r heq =>
    by_cases hxy : x = y ∧ n.val < 255
    · obtain ⟨rfl, hn⟩ := hxy
      exact Or.inl ⟨n, r, heq, hn, by simp [hn]⟩
    · refine Or.inr (Or.inl ⟨by simp [hxy, heq], ?_⟩)
      intro n' r' h'
      rw [heq] at h'
      simp only [List.cons.injEq] at h'
      obtain ⟨h1, h2, _⟩ := h'
      have hlt := n.isLt
      have hn : ¬ n.val < 255 := fun hn => hxy ⟨h2.symm, hn⟩
      rw [← h1]
      omega
  · exact Or.inr (Or.inr rfl)

/-- The run-length coding of a run of `m + 1` equal bytes followed by `t`: a
count, the byte, and a rest that holds only full counts of that run. -/
theorem rleEncode_run (x : Fin 256) (t : Bytes) (m : Nat) :
    ∃ (n : Fin 256) (r : Bytes), rleEncode (List.replicate (m + 1) x ++ t) = n :: x :: r ∧
      255 * r.length + 2 * n.val ≤ 2 * (m + 1) + 253 + 255 * (rleEncode t).length := by
  have hsucc : ∀ n : Fin 256, n.val < 255 → (n + 1).val = n.val + 1 := by
    intro n hn
    rw [Fin.val_add]; simp; omega
  have step : ∀ (xs : Bytes) (B : Nat),
      (∀ (n : Fin 256) (r : Bytes), rleEncode xs = n :: x :: r →
        255 * r.length + 2 * n.val ≤ B) →
      ((∀ (n : Fin 256) (r : Bytes), rleEncode xs ≠ n :: x :: r) →
        255 * (rleEncode xs).length ≤ B) →
      ∃ (n : Fin 256) (r : Bytes), rleEncode (x :: xs) = n :: x :: r ∧
        255 * r.length + 2 * n.val ≤ B + 2 := by
    intro xs B hB hlen
    rcases rleEncode_cons_cases x xs with ⟨n, r, heq, hn, hres⟩ | ⟨hres, hfull⟩ | hres
    · refine ⟨n + 1, r, hres, ?_⟩
      have := hB n r heq
      rw [hsucc n hn]
      omega
    · refine ⟨1, rleEncode xs, hres, ?_⟩
      simp only [Fin.val_one]
      match hm : rleEncode xs with
      | [] => simp
      | [z] =>
        have h1 := hlen (by intro n r h; rw [hm] at h; simp at h)
        rw [hm] at h1
        exact Nat.add_le_add_right h1 2
      | n :: y :: r =>
        by_cases hy : y = x
        · subst hy
          have h1 := hB n r hm
          have h2 := hfull n r hm
          simp only [List.length_cons]
          omega
        · have h1 := hlen (by
            intro n' r' h
            rw [hm] at h
            simp only [List.cons.injEq] at h
            exact hy h.2.1)
          rw [hm] at h1
          exact Nat.add_le_add_right h1 2
    · refine ⟨1, [], hres, ?_⟩
      simp
  induction m with
  | zero =>
    have h := step t (253 + 255 * (rleEncode t).length)
      (by
        intro n r heq
        have hlt := n.isLt
        rw [heq]
        simp only [List.length_cons]
        omega)
      (by intro _; omega)
    obtain ⟨n, r, heq, hb⟩ := h
    exact ⟨n, r, heq, by omega⟩
  | succ m ih =>
    obtain ⟨n, r, heq, hb⟩ := ih
    have h := step (List.replicate (m + 1) x ++ t)
      (2 * (m + 1) + 253 + 255 * (rleEncode t).length)
      (by
        intro n' r' heq'
        rw [heq] at heq'
        simp only [List.cons.injEq, true_and] at heq'
        obtain ⟨rfl, rfl⟩ := heq'
        exact hb)
      (by
        intro hno
        exact absurd heq (hno n r))
    obtain ⟨n', r', heq', hb'⟩ := h
    exact ⟨n', r', heq', by omega⟩

/-- The compressed form of the JSON bytes of a string of `k` letters `x`, in the
concrete library: about two bytes for every 255 letters. -/
theorem demoCompress_xs_length (k : Nat) (hk : 0 < k) :
    255 * (120 :: 156 :: rleEncode (34 :: (List.replicate k 120 ++ [34]))).length
      ≤ 2 * k + 2803 := by
  obtain ⟨m, rfl⟩ : ∃ m, k = m + 1 := ⟨k - 1, by omega⟩
  obtain ⟨n, r, heq, hb⟩ := rleEncode_run 120 [34] m
  have h1 := rleEncode_cons_length 34 (List.replicate (m + 1) 120 ++ [34])
  have h2 : (rleEncode [34]).length = 2 := by decide
  have hlt := n.isLt
  rw [heq] at h1
  rw [h2] at hb
  simp only [List.length_cons] at h1 ⊢
  omega

/-- Claim C16: highly compressible values are marked. A value whose compressed
JSON bytes `c` are strictly shorter than its JSON bytes `j` is encoded as the
marker followed by the base64 of `c`, and decoding that string restores the
value; the witness is the string of 10000 letters `x`. -/
theorem compressible_value_marked {Value : Type} (L : Lib Value)
    (jsonEq : Option Value → Option Value → Prop) (hL : LawfulLib L jsonEq)
    (v : Option Value) (j c : Bytes)
    (hj : L.jsonMarshal v = .ok j) (hc : L.zlibCompress j = .ok c)
    (hlt : c.length < j.length) :
    urlSafeSerialize L v = .ret ("." ++ L.base64Encode c) none ∧
    marked ("." ++ L.base64Encode c) = true ∧
    ∃ w, urlSafeDeserialize L ("." ++ L.base64Encode c) = .ret w none ∧ jsonEq v w := by
  have henc : urlSafeSerialize L v = .ret ("." ++ L.base64Encode c) none := by
    simp [urlSafeSerialize, hj, hc, hlt]
  exact ⟨henc, marked_dot_append _, roundtrip_core L jsonEq hL v _ henc⟩

/-- The string of 10000 letters `x`: 10002 JSON bytes against fewer than 100. -/
theorem compressible_value_marked_witness :
    urlSafeSerialize demoLib (some (.str (List.replicate 10000 120)))
        = .ret ("." ++ demoLib.base64Encode
            (120 :: 156 :: rleEncode (34 :: (List.replicate 10000 120 ++ [34])))) none ∧
      marked ("." ++ demoLib.base64Encode
        (120 :: 156 :: rleEncode (34 :: (List.replicate 10000 120 ++ [34])))) = true ∧
      ∃ w, urlSafeDeserialize demoLib ("." ++ demoLib.base64Encode
          (120 :: 156 :: rleEncode (34 :: (List.replicate 10000 120 ++ [34]))))
          = .ret w none ∧
        some (DemoValue.str (List.replicate 10000 120)) = w :=
  compressible_value_marked demoLib (fun v w => v = w) demoLib_lawful
    (some (.str (List.replicate 10000 120)))
    (34 :: (List.replicate 10000 120 ++ [34]))
    (120 :: 156 :: rleEncode (34 :: (List.replicate 10000 120 ++ [34])))
    (demoJsonMarshal_xs 10000) rfl
    (by
      have h := demoCompress_xs_length 10000 (by omega)
      have hl : (34 :: (List.replicate 10000 (120 : Fin 256) ++ [34])).length = 10002 := by
        simp only [List.length_cons, List.length_append, List.length_replicate,
          List.length_nil]
      rw [hl]
      omega)

/-! ## Lengths -/

/-- On a non-empty input `urlSafeDeserialize` returns: the index `0` is in range. -/
theorem urlSafeDeserialize_returns {Value : Type} (L : Lib Value) (s : String)
    (hs : s ≠ "") : ∃ val err, urlSafeDeserialize L s = .ret val err := by
  rw [urlSafeDeserialize_nonempty L s hs]
  cases L.base64Decode (remainder s) with
  | error e => exact ⟨_, _, rfl⟩
  | ok d =>
    by_cases hm : marked s = true
    · cases hz : L.zlibDecompress d with
      | error e => simp [hm, hz]
      | ok b => cases hp : L.jsonUnmarshal b <;> simp [hm, hz, hp]
    · cases hp : L.jsonUnmarshal d <;> simp [hm, hp]

theorem length_pos_of_ne_empty (s : String) (hs : s ≠ "") : 1 ≤ s.length := by
  obtain ⟨cs⟩ := s
  cases cs with
  | nil => exact absurd rfl hs
  | cons c rest => simp [String.length]

/-- Claim C17: `urlSafeSerialize` never produces the empty string. Given that JSON
bytes, zlib streams and the base64 of non-empty bytes are never empty, a
successful `urlSafeSerialize` returns a string of length at least 1 that frames a
non-empty payload, and `urlSafeDeserialize` does not panic on it. -/
theorem urlSafeSerialize_nonempty {Value : Type} (L : Lib Value)
    (hj : JsonNonEmpty L) (hb : Base64NonEmpty L) (hz : ZlibOverhead L 1)
    (v : Option Value) (s : String) (henc : urlSafeSerialize L v = .ret s none) :
    s ≠ "" ∧ 1 ≤ s.length ∧
    (∃ payload : Bytes, payload ≠ [] ∧ L.base64Encode payload ≠ "" ∧
      (s = L.base64Encode payload ∨ s = "." ++ L.base64Encode payload)) ∧
    (∃ val err, urlSafeDeserialize L s = .ret val err) ∧
    ∀ msg, urlSafeDeserialize L s ≠ .panic msg := by
  obtain ⟨j, c, hjv, hc, hshape⟩ := urlSafeSerialize_ok L v s henc
  have hjne : j ≠ [] := hj v j hjv
  have hcne : c ≠ [] := by
    have := hz j c hc
    intro h
    rw [h] at this
    simp at this
  have hs : s ≠ "" := by
    rcases hshape with ⟨_, rfl⟩ | ⟨_, rfl⟩
    · exact dot_append_ne_empty _
    · exact hb j hjne
  obtain ⟨val, err, hret⟩ := urlSafeDeserialize_returns L s hs
  refine ⟨hs, length_pos_of_ne_empty s hs, ?_, ⟨val, err, hret⟩, ?_⟩
  · rcases hshape with ⟨_, rfl⟩ | ⟨_, rfl⟩
    · exact ⟨c, hcne, hb c hcne, Or.inr rfl⟩
    · exact ⟨j, hjne, hb j hjne, Or.inl rfl⟩
  · intro msg hp
    rw [hret] at hp
    simp at hp

theorem demoLib_overhead : ZlibOverhead demoLib 2 := by
  intro p c h
  simp only [demoLib, demoZlibCompress, Except.ok.injEq] at h
  subst h
  simp

/-- The encoding of the value `true`. -/
theorem urlSafeSerialize_nonempty_witness :
    "dHJ1ZQ" ≠ "" ∧ 1 ≤ "dHJ1ZQ".length ∧
    (∃ payload : Bytes, payload ≠ [] ∧ demoLib.base64Encode payload ≠ "" ∧
      ("dHJ1ZQ" = demoLib.base64Encode payload ∨
        "dHJ1ZQ" = "." ++ demoLib.base64Encode payload)) ∧
    (∃ val err, urlSafeDeserialize demoLib "dHJ1ZQ" = .ret val err) ∧
    ∀ msg, urlSafeDeserialize demoLib "dHJ1ZQ" ≠ .panic msg :=
  urlSafeSerialize_nonempty demoLib demoLib_lawful.jsonNonEmpty
    demoLib_lawful.base64NonEmpty (fun p c h => Nat.le_trans (by decide) (demoLib_overhead p c h))
    (some (.bool true)) "dHJ1ZQ" (by decide)

theorem b64EncodeChars_length (p : Bytes) :
    (b64EncodeChars p).length = (4 * p.length + 2) / 3 := by
  induction p using b64EncodeChars.induct with
  | case1 a b c rest ih =>
    simp only [b64EncodeChars, List.length_cons, ih]
    omega
  | case2 a b => simp [b64EncodeChars]
  | case3 a => simp [b64EncodeChars]
  | case4 => rfl

theorem demoLib_unpadded : Base64Unpadded demoLib := by
  intro p
  simp [demoLib, String.length, b64EncodeChars_length]

theorem length_dot_append (x : String) : ("." ++ x).length = x.length + 1 := by
  have h1 : (".").length = 1 := by decide
  rw [String.length_append, h1, Nat.add_comm]

/-- Claim C18: compression never makes the framed string longer. When
`urlSafeSerialize` succeeds, the framed payload has the length
`min (len json) (len compressed)`, and, for base64 without padding, the returned
string, marker included, is at most as long as the base64 of the JSON bytes. -/
theorem urlSafeSerialize_length_le {Value : Type} (L : Lib Value)
    (hu : Base64Unpadded L) (v : Option Value) (s : String)
    (henc : urlSafeSerialize L v = .ret s none) :
    ∃ j c payload, L.jsonMarshal v = .ok j ∧ L.zlibCompress j = .ok c ∧
      (s = L.base64Encode payload ∨ s = "." ++ L.base64Encode payload) ∧
      payload.length = min j.length c.length ∧
      s.length ≤ (L.base64Encode j).length := by
  obtain ⟨j, c, hj, hc, hshape⟩ := urlSafeSerialize_ok L v s henc
  rcases hshape with ⟨hlt, rfl⟩ | ⟨hge, rfl⟩
  · refine ⟨j, c, c, hj, hc, Or.inr rfl, by omega, ?_⟩
    rw [length_dot_append, hu c, hu j]
    omega
  · exact ⟨j, c, j, hj, hc, Or.inl rfl, by omega, Nat.le_refl _⟩

/-- The string of twenty `x`: 12 characters for 8 compressed bytes and the marker,
against 30 characters for the 22 JSON bytes. -/
theorem urlSafeSerialize_length_le_witness :
    ∃ j c payload, demoLib.jsonMarshal (some (.str (List.replicate 20 120))) = .ok j ∧
      demoLib.zlibCompress j = .ok c ∧
      (".eJwBIhR4ASI" = demoLib.base64Encode payload ∨
        ".eJwBIhR4ASI" = "." ++ demoLib.base64Encode payload) ∧
      payload.length = min j.length c.length ∧
      ".eJwBIhR4ASI".length ≤ (demoLib.base64Encode j).length :=
  urlSafeSerialize_length_le demoLib demoLib_unpadded
    (some (.str (List.replicate 20 120))) ".eJwBIhR4ASI" (by decide)

/-! ## Decoding either framing -/

/-- Claim C19: `urlSafeDeserialize` accepts either framing whatever the lengths are.
For well-formed JSON bytes `j` that parse to `w`, and their compressed form `c`,
both the unmarked base64 of `j` and the marker followed by the base64 of `c`
decode to `w`; no comparison of the lengths of `c` and `j` is assumed. -/
theorem urlSafeDeserialize_either_framing {Value : Type} (L : Lib Value)
    (hn : Base64NoMarker L) (hb : Base64Roundtrip L) (hne : Base64NonEmpty L)
    (hz : ZlibRoundtrip L) (he : JsonRejectsEmpty L)
    (j c : Bytes) (w : Option Value)
    (hj : L.jsonUnmarshal j = .ok w) (hc : L.zlibCompress j = .ok c) :
    urlSafeDeserialize L (L.base64Encode j) = .ret w none ∧
    urlSafeDeserialize L ("." ++ L.base64Encode c) = .ret w none := by
  have hjne : j ≠ [] := by
    intro h
    obtain ⟨e, hempty⟩ := he
    rw [h, hempty] at hj
    simp at hj
  constructor
  · rw [urlSafeDeserialize_unmarked_decoded L _ j (hne j hjne) (hn j)
      (by rw [remainder_of_not_marked _ (hn j)]; exact hb j), hj]
  · rw [urlSafeDeserialize_marked_inflated L _ c j (marked_dot_append _)
      (by rw [remainder_dot_append]; exact hb c) (hz j c hc), hj]

/-- The bytes of `true`, whose compressed form has 10 bytes against 4. -/
theorem urlSafeDeserialize_either_framing_witness :
    demoLib.zlibCompress trueBytes = .ok [120, 156, 1, 116, 1, 114, 1, 117, 1, 101] ∧
      demoLib.base64Encode trueBytes = "dHJ1ZQ" ∧
      "." ++ demoLib.base64Encode [120, 156, 1, 116, 1, 114, 1, 117, 1, 101]
        = ".eJwBdAFyAXUBZQ" ∧
      urlSafeDeserialize demoLib (demoLib.base64Encode trueBytes)
        = .ret (some (.bool true)) none ∧
      urlSafeDeserialize demoLib
          ("." ++ demoLib.base64Encode [120, 156, 1, 116, 1, 114, 1, 117, 1, 101])
        = .ret (some (.bool true)) none :=
  ⟨rfl, by decide, by decide,
    urlSafeDeserialize_either_framing demoLib demoLib_lawful.noMarker
      demoLib_lawful.base64 demoLib_lawful.base64NonEmpty demoLib_lawful.zlib
      ⟨.base "unexpected end of JSON input", rfl⟩
      trueBytes [120, 156, 1, 116, 1, 114, 1, 117, 1, 101] (some (.bool true)) rfl rfl⟩

end ItsDangerous
